import Mathlib

/-!
Shallow embedding of the youscrapy video-metadata pipeline
(`youtube_scrapy.py`, the output-file writes of `main.py`, and the report
aggregation of `data_processor.py`).

Python strings are modelled as `List Char` (`PyStr`), so that Python's
`'\t'.join` / split-on-tab pair is `List.intercalate` / `List.splitOn`.
Output files are modelled as lists of lines (each line stored without its
trailing newline). Network effects (`ydl.extract_info`, `requests.get`) are
modelled as environment functions returning `Except`-values: `.error msg`
stands for the call raising an exception whose `str` is `msg`.
-/

abbrev PyStr := List Char

def pystr (s : String) : PyStr := s.data

/-- The whitespace characters removed by Python `str.strip()` (ASCII range;
Unicode whitespace does not occur in the payloads considered here). -/
def pyIsSpace (c : Char) : Bool :=
  c = ' ' || c = '\t' || c = '\n' || c = '\r' || c = '\x0b' || c = '\x0c'

/-- Python `str.strip()`. -/
def pyStrip (s : PyStr) : PyStr :=
  ((s.dropWhile pyIsSpace).reverse.dropWhile pyIsSpace).reverse

/-- Python `needle in haystack` on strings (substring test). -/
def pySubstr (needle haystack : PyStr) : Bool :=
  decide (needle <:+: haystack)

/-! ### JSON values (the result of `json.loads`) -/

/-- Parsed JSON values. `json.loads` on a raw subtitle payload either raises
(modelled as `Except.error`) or yields one of these. -/
inductive JVal where
  | jnull
  | jbool (b : Bool)
  | jnum (n : Int)
  | jstr (s : PyStr)
  | jarr (elems : List JVal)
  | jobj (entries : List (PyStr × JVal))

mutual

def JVal.beq : JVal → JVal → Bool
  | .jnull, .jnull => true
  | .jbool a, .jbool b => a == b
  | .jnum a, .jnum b => a == b
  | .jstr a, .jstr b => a == b
  | .jarr a, .jarr b => JVal.beqList a b
  | .jobj a, .jobj b => JVal.beqObj a b
  | _, _ => false

def JVal.beqList : List JVal → List JVal → Bool
  | [], [] => true
  | x :: xs, y :: ys => JVal.beq x y && JVal.beqList xs ys
  | _, _ => false

def JVal.beqObj : List (PyStr × JVal) → List (PyStr × JVal) → Bool
  | [], [] => true
  | (k1, v1) :: xs, (k2, v2) :: ys => k1 == k2 && JVal.beq v1 v2 && JVal.beqObj xs ys
  | _, _ => false

end

instance : BEq JVal := ⟨JVal.beq⟩

/-- Key lookup in a JSON object (Python dicts have unique keys; first match). -/
def jlookup (k : PyStr) (entries : List (PyStr × JVal)) : Option JVal :=
  (entries.find? (fun e => e.1 == k)).map (·.2)

/-- Python `key in v` for a string `key`, as used by `_extract_subtitle_text`:
key test on dicts, element membership on lists, substring test on strings;
a number/bool/None operand raises TypeError (`Except.error`). -/
def jcontains (k : PyStr) (v : JVal) : Except Unit Bool :=
  match v with
  | .jobj kvs => .ok (jlookup k kvs).isSome
  | .jarr l => .ok (l.contains (.jstr k))
  | .jstr s => .ok (pySubstr k s)
  | _ => .error ()

/-- Python `v[key]` for a string `key`: dict lookup is the only non-raising
case (`KeyError` on a missing key, `TypeError` on non-dicts). -/
def jindex (k : PyStr) (v : JVal) : Except Unit JVal :=
  match v with
  | .jobj kvs =>
    match jlookup k kvs with
    | some x => .ok x
    | none => .error ()
  | _ => .error ()

/-- Python `for x in v`: lists yield their elements, strings yield
one-character strings, dicts yield their keys; other values raise. -/
def jiter (v : JVal) : Except Unit (List JVal) :=
  match v with
  | .jarr l => .ok l
  | .jstr s => .ok (s.map (fun c => .jstr [c]))
  | .jobj kvs => .ok (kvs.map (fun e => JVal.jstr e.1))
  | _ => .error ()

/-! ### `YouTubeScraper._extract_subtitle_text` -/

/-- Body of the inner `for seg in event['segs']` loop: the stripped `utf8`
text is kept when non-empty and not `"\n"` (after `strip` the latter test is
vacuous, but it is in the source). A non-string `utf8` value raises at
`.strip()`. -/
def segTexts (seg : JVal) : Except Unit (List PyStr) := do
  if ← jcontains (pystr "utf8") seg then
    match ← jindex (pystr "utf8") seg with
    | .jstr s =>
      let text := pyStrip s
      if text ≠ [] ∧ text ≠ pystr "\n" then pure [text] else pure []
    | _ => .error ()
  else
    pure []

/-- Body of the outer `for event in subtitle_data['events']` loop. -/
def eventTexts (event : JVal) : Except Unit (List PyStr) := do
  if ← jcontains (pystr "segs") event then
    let segs ← jiter (← jindex (pystr "segs") event)
    let parts ← segs.mapM segTexts
    pure parts.flatten
  else
    pure []

/-- The `try`-block of `_extract_subtitle_text` applied to a parsed payload:
collect the kept texts of every event and join them with a single space. -/
def extractSubtitleTextJ (subtitleData : JVal) : Except Unit PyStr := do
  let textParts ←
    (do
      if ← jcontains (pystr "events") subtitleData then
        let events ← jiter (← jindex (pystr "events") subtitleData)
        let parts ← events.mapM eventTexts
        pure parts.flatten
      else
        pure [])
  pure (List.intercalate (pystr " ") textParts)

/-- `YouTubeScraper._extract_subtitle_text`, applied to the outcome of
`json.loads` on the raw payload (`.error` = the parse raised). Every
exception in the body is caught, logged, and turned into `""`. -/
def extract_subtitle_text (parsed : Except PyStr JVal) : PyStr :=
  match parsed with
  | .error _ => []
  | .ok j =>
    match extractSubtitleTextJ j with
    | .ok t => t
    | .error _ => []

/-! ### `YouTubeScraper._process_subtitles` -/

/-- A raw subtitle payload string, abstracted to the two facts the pipeline
inspects: Python truthiness of the string (the `if content:` test) and the
outcome of `json.loads` on it. -/
structure RawPayload where
  isEmpty : Bool
  parsed : Except PyStr JVal

/-- Key lookup in an association-list model of a Python dict. -/
def dictGet {α : Type} (k : PyStr) (d : List (PyStr × α)) : Option α :=
  (d.find? (fun e => e.1 == k)).map (·.2)

/-- One channel's loop of `_process_subtitles`: label each language whose
content is truthy and extracts to non-empty text. `tag` is `"手动字幕_"` or
`"自动字幕_"`. -/
def tagLines (tag : PyStr) (tracks : List (PyStr × RawPayload)) : List PyStr :=
  tracks.filterMap (fun lc =>
    if lc.2.isEmpty then none
    else
      let text := extract_subtitle_text lc.2.parsed
      if text = [] then none
      else some (tag ++ lc.1 ++ pystr "：" ++ text))

/-- `YouTubeScraper._process_subtitles`. The argument models the `subtitles`
dict: `none` is Python `None`, `some []` the empty dict; other keys than
`'manual'`/`'auto'` are never read. -/
def process_subtitles
    (subtitles : Option (List (PyStr × List (PyStr × RawPayload)))) : PyStr :=
  match subtitles with
  | none => pystr "无字幕"
  | some subs =>
    if subs.isEmpty then pystr "无字幕"
    else
      let processedSubs :=
        (match dictGet (pystr "manual") subs with
         | some m => tagLines (pystr "手动字幕_") m
         | none => [])
        ++
        (match dictGet (pystr "auto") subs with
         | some a => tagLines (pystr "自动字幕_") a
         | none => [])
      if processedSubs = [] then pystr "无字幕"
      else List.intercalate (pystr "\t") processedSubs

/-! ### The record dict and `YouTubeScraper._save_video_data` -/

/-- A Python value stored in the record dict: a string, an int, or (only in
the report aggregation) pandas' NaN missing marker. -/
inductive PyVal where
  | s (v : PyStr)
  | i (v : Int)
  | nan
deriving Repr, DecidableEq

/-- Python `str()` on a record value. -/
def pyStrOf : PyVal → PyStr
  | .s v => v
  | .i n => pystr (toString n)
  | .nan => pystr "nan"

/-- The eighteen record-dict keys, romanized (the source uses Chinese
keys; Lean identifiers cannot). -/
def kSeq : PyStr := pystr "序号"

def kTerm : PyStr := pystr "搜索关键词"

def kTermIdx : PyStr := pystr "关键词序号"

def kTime : PyStr := pystr "爬取时间"

def kVid : PyStr := pystr "视频ID"

def kTitle : PyStr := pystr "标题"

def kChannel : PyStr := pystr "频道名"

def kChannelId : PyStr := pystr "频道ID"

def kPubDate : PyStr := pystr "发布时间"

def kUrl : PyStr := pystr "视频链接"

def kThumb : PyStr := pystr "缩略图链接"

def kDuration : PyStr := pystr "视频时长"

def kViews : PyStr := pystr "观看次数"

def kLikes : PyStr := pystr "点赞数"

def kComments : PyStr := pystr "评论数"

def kDesc : PyStr := pystr "描述"

def kStatus : PyStr := pystr "处理状态"

def kCaption : PyStr := pystr "字幕内容"

/-- `dict[k] = v`: overwrite in place when the key exists (Python preserves
insertion position), append otherwise. -/
def dictSet (k : PyStr) (v : PyVal) (d : List (PyStr × PyVal)) : List (PyStr × PyVal) :=
  if d.any (fun e => e.1 == k) then d.map (fun e => if e.1 == k then (k, v) else e)
  else d ++ [(k, v)]

/-- The `default_video_data` dict of `_save_video_data`. -/
def default_video_data : List (PyStr × PyVal) :=
  [(kSeq, .s []), (kTerm, .s []), (kTermIdx, .s []), (kTime, .s []), (kVid, .s []),
   (kTitle, .s []), (kChannel, .s []), (kChannelId, .s []), (kPubDate, .s []),
   (kUrl, .s []), (kThumb, .s []), (kDuration, .s []), (kViews, .i 0), (kLikes, .i 0),
   (kComments, .i 0), (kDesc, .s []), (kStatus, .s []), (kCaption, .s (pystr "无字幕"))]

/-- Lookup in `default_video_data.update(video_data)`: the caller's value
when present, the default otherwise. -/
def updatedGet (videoData : List (PyStr × PyVal)) (k : PyStr) : PyVal :=
  (dictGet k videoData).getD ((dictGet k default_video_data).getD (.s []))

/-- `str(...).replace('\n', ' ').replace('\t', ' ')` (single characters, so
substring replacement is a character map). -/
def sanitize (s : PyStr) : PyStr :=
  (s.map (fun c => if c = '\n' then ' ' else c)).map (fun c => if c = '\t' then ' ' else c)

/-- The `data_fields` list of `_save_video_data`: the eighteen values as
strings, in source order, with title / channel name / description sanitized. -/
def data_fields (videoData : List (PyStr × PyVal)) : List PyStr :=
  [pyStrOf (updatedGet videoData kSeq),
   pyStrOf (updatedGet videoData kTerm),
   pyStrOf (updatedGet videoData kTermIdx),
   pyStrOf (updatedGet videoData kTime),
   pyStrOf (updatedGet videoData kVid),
   sanitize (pyStrOf (updatedGet videoData kTitle)),
   sanitize (pyStrOf (updatedGet videoData kChannel)),
   pyStrOf (updatedGet videoData kChannelId),
   pyStrOf (updatedGet videoData kPubDate),
   pyStrOf (updatedGet videoData kUrl),
   pyStrOf (updatedGet videoData kThumb),
   pyStrOf (updatedGet videoData kDuration),
   pyStrOf (updatedGet videoData kViews),
   pyStrOf (updatedGet videoData kLikes),
   pyStrOf (updatedGet videoData kComments),
   sanitize (pyStrOf (updatedGet videoData kDesc)),
   pyStrOf (updatedGet videoData kStatus),
   pyStrOf (updatedGet videoData kCaption)]

/-- `YouTubeScraper._save_video_data`: append the tab-joined fields as one
line (lines are stored without their trailing newline). The surrounding
try/except only fires on filesystem failures, absent from the pure file
model, so the write always happens here. -/
def save_video_data (videoData : List (PyStr × PyVal)) (file : List PyStr) : List PyStr :=
  file ++ [List.intercalate (pystr "\t") (data_fields videoData)]

/-! ### `YouTubeScraper._process_single_video` -/

/-- A search-result stub dict, restricted to the keys the builder reads via
`.get`; `none` models an absent key (the `.get` default applies). -/
structure VideoInfo where
  id : Option PyStr
  title : Option PyStr
  uploader : Option PyStr
  channel_id : Option PyStr
  upload_date : Option PyStr
  thumbnail : Option PyStr
  duration_string : Option PyStr
  view_count : Option Int
  like_count : Option Int
  comment_count : Option Int
  description : Option PyStr

/-- The subtitles dict `{'manual': ..., 'auto': ...}` assembled by
`_get_video_data` (both keys always present). -/
structure Subtitles where
  manual : List (PyStr × RawPayload)
  auto : List (PyStr × RawPayload)

/-- That dict as a `_process_subtitles` argument. -/
def subsDict (s : Subtitles) : List (PyStr × List (PyStr × RawPayload)) :=
  [(pystr "manual", s.manual), (pystr "auto", s.auto)]

/-- Outcome of the detail fetch plus the remaining enrichment steps, as seen
from `_process_single_video`'s try block: `.ok none` = `_get_video_data`
caught an internal error and returned `None`; `.ok (some subs)` = the fetch
succeeded with these subtitle tracks; `.error msg` = an exception escaped
into the per-video handler (with `str(e) = msg`). -/
abbrev FetchOutcome := Except PyStr (Option Subtitles)

/-- The fully-populated base record dict built at the top of
`_process_single_video`. -/
def baseVideoData (videoInfo : VideoInfo) (term : PyStr) (termIndex globalIndex : Int)
    (captureTime : PyStr) : List (PyStr × PyVal) :=
  let video_id := videoInfo.id.getD []
  let video_url := pystr "https://www.youtube.com/watch?v=" ++ video_id
  [(kSeq, .i globalIndex), (kTerm, .s term), (kTermIdx, .i termIndex),
   (kTime, .s captureTime), (kVid, .s video_id),
   (kTitle, .s (videoInfo.title.getD [])),
   (kChannel, .s (videoInfo.uploader.getD [])),
   (kChannelId, .s (videoInfo.channel_id.getD [])),
   (kPubDate, .s (videoInfo.upload_date.getD [])),
   (kUrl, .s video_url),
   (kThumb, .s (videoInfo.thumbnail.getD [])),
   (kDuration, .s (videoInfo.duration_string.getD [])),
   (kViews, .i (videoInfo.view_count.getD 0)),
   (kLikes, .i (videoInfo.like_count.getD 0)),
   (kComments, .i (videoInfo.comment_count.getD 0)),
   (kDesc, .s (videoInfo.description.getD [])),
   (kStatus, .s (pystr "开始处理")),
   (kCaption, .s (pystr "无字幕"))]

/-- `YouTubeScraper._process_single_video`, with the detail fetch supplied by
`fetch : video_url ↦ FetchOutcome`. Returns the file after the call and the
boolean result. An empty extracted id returns `False` with no write; the
`.error` case follows the handler: the base record exists, is marked failed
and written. The subtitles dict returned on success always holds the keys
`'manual'` and `'auto'`, so `detailed_data.get('subtitles')` is truthy. -/
def process_single_video (fetch : PyStr → FetchOutcome) (videoInfo : VideoInfo)
    (term : PyStr) (termIndex globalIndex : Int) (captureTime : PyStr)
    (file : List PyStr) : List PyStr × Bool :=
  let video_id := videoInfo.id.getD []
  if video_id.isEmpty then (file, false)
  else
    let video_url := pystr "https://www.youtube.com/watch?v=" ++ video_id
    let video_data := baseVideoData videoInfo term termIndex globalIndex captureTime
    match fetch video_url with
    | .ok detailedData =>
      let video_data' :=
        match detailedData with
        | some subs =>
          let subtitles_content := process_subtitles (some (subsDict subs))
          if subtitles_content.isEmpty then video_data
          else
            dictSet kStatus (.s (pystr "处理完成"))
              (dictSet kCaption (.s subtitles_content) video_data)
        | none => video_data
      (save_video_data video_data' file, true)
    | .error e =>
      let failed :=
        dictSet kCaption (.s (pystr "获取失败"))
          (dictSet kStatus (.s (pystr "处理失败: " ++ e)) video_data)
      (save_video_data failed file, false)

/-! ### `YouTubeScraper.fetch_videos` -/

/-- The run environment: per-term search outcome (`.error` = `extract_info`
raised, term skipped; `.ok none` = falsy result or no `'entries'` key;
`.ok (some entries)` = raw entries, `none` entries being the falsy stubs
filtered by `if v`), per-URL detail-fetch outcome, and the capture timestamp
returned by `datetime.utcnow()` for the video with a given global index. -/
structure RunEnv where
  search : PyStr → Except PyStr (Option (List (Option VideoInfo)))
  fetch : PyStr → FetchOutcome
  clock : Int → PyStr

/-- The inner `for video in videos` loop: state is
(global_index, file, total_count). -/
def processVideos (env : RunEnv) (term : PyStr) (termIndex : Int) :
    List VideoInfo → Int × List PyStr × Int → Int × List PyStr × Int
  | [], st => st
  | v :: rest, (globalIndex, file, totalCount) =>
    let gi := globalIndex + 1
    let r := process_single_video env.fetch v term termIndex gi (env.clock gi) file
    processVideos env term termIndex rest
      (gi, r.1, if r.2 then totalCount + 1 else totalCount)

/-- The outer `for term_index, term in enumerate(search_terms, 1)` loop. -/
def processTerms (env : RunEnv) :
    List (Int × PyStr) → Int × List PyStr × Int → Int × List PyStr × Int
  | [], st => st
  | (termIndex, term) :: rest, st =>
    match env.search term with
    | .error _ => processTerms env rest st
    | .ok none => processTerms env rest st
    | .ok (some entries) =>
      processTerms env rest (processVideos env term termIndex (entries.filterMap id) st)

/-- The header row written by `fetch_videos` (same names and order as the
record dict). -/
def headers : List PyStr :=
  [kSeq, kTerm, kTermIdx, kTime, kVid, kTitle, kChannel, kChannelId, kPubDate,
   kUrl, kThumb, kDuration, kViews, kLikes, kComments, kDesc, kStatus, kCaption]

/-- `enumerate(search_terms, 1)`. -/
def enumerate1 (terms : List PyStr) : List (Int × PyStr) :=
  terms.enum.map (fun p => ((p.1 : Int) + 1, p.2))

/-- `YouTubeScraper.fetch_videos`: opens the output file in `'w'` mode and
writes the header — discarding whatever `fileBefore` held — then runs the
term loop. Returns the final file contents and `total_count`. -/
def fetch_videos (env : RunEnv) (search_terms : List PyStr)
    (fileBefore : List PyStr) : List PyStr × Int :=
  let _ := fileBefore
  let file0 := [List.intercalate (pystr "\t") headers]
  let r := processTerms env (enumerate1 search_terms) (0, file0, 0)
  (r.2.1, r.2.2)

/-- The output-file writes performed by `main`: the metadata JSON line is
written first (in `'w'` mode, so the file then holds exactly that line), and
`fetch_videos` is then called on the same path. -/
def main_output_file (metadataLine : PyStr) (env : RunEnv)
    (search_terms : List PyStr) : List PyStr :=
  (fetch_videos env search_terms [metadataLine]).1

/-! ### `DataProcessor` (report aggregation)

A DataFrame built from a list of dicts is modelled by the list of rows; its
column index is the union of the rows' keys in first-appearance order. Sheet
contents are abstracted to the sheet names: every claim about the report
concerns which sheets are emitted and which warnings are logged. -/

abbrev Row := List (PyStr × PyVal)

/-- Add one key to a column index (first-appearance order, no duplicates). -/
def addCol (acc : List PyStr) (k : PyStr) : List PyStr :=
  if acc.contains k then acc else acc ++ [k]

/-- Add one row's keys to a column index. -/
def addCols (acc : List PyStr) (row : Row) : List PyStr :=
  row.foldl (fun a e => addCol a e.1) acc

/-- The column index of `pd.DataFrame(rows)`: the union of the rows' keys in
first-appearance order. -/
def dfColumns (rows : List Row) : List PyStr :=
  rows.foldl addCols []

/-- `{**item, 'platform': p}`: tag one record with its platform. -/
def tagPlatform (p : PyStr) (item : Row) : Row :=
  dictSet (pystr "platform") (.s p) item

/-- `DataProcessor._prepare_dataframe`: tag and merge the two collections
(both empty yields the empty DataFrame). -/
def prepare_dataframe (youtube_data tiktok_data : List Row) : List Row :=
  youtube_data.map (tagPlatform (pystr "youtube"))
    ++ tiktok_data.map (tagPlatform (pystr "tiktok"))

/-- The columns coerced by `_convert_to_numeric`. -/
def numeric_columns : List PyStr :=
  [pystr "view_count", pystr "like_count", pystr "comment_count", pystr "share_count"]

/-- A decimal-integer string (an optional `'-'` sign then digits); wider
numeric syntax accepted by `pd.to_numeric` is out of scope — no claim
depends on cell values. -/
def parseIntPy (s : PyStr) : Option Int :=
  match s with
  | '-' :: rest =>
    if rest ≠ [] ∧ rest.all Char.isDigit
    then some (-(rest.foldl (fun n c => n * 10 + (c.toNat - '0'.toNat)) 0 : Int))
    else none
  | _ =>
    if s ≠ [] ∧ s.all Char.isDigit
    then some ((s.foldl (fun n c => n * 10 + (c.toNat - '0'.toNat)) 0 : Int))
    else none

/-- `pd.to_numeric(·, errors='coerce')` on one cell. -/
def toNumericCell : PyVal → PyVal
  | .i n => .i n
  | .s v => match parseIntPy v with | some n => .i n | none => .nan
  | .nan => .nan

/-- One cell of `_convert_to_numeric`: coerced when its column is numeric. -/
def convCell (e : PyStr × PyVal) : PyStr × PyVal :=
  if numeric_columns.contains e.1 then (e.1, toNumericCell e.2) else e

/-- `DataProcessor._convert_to_numeric` (keys untouched, so the column index
is unchanged). -/
def convert_to_numeric (rows : List Row) : List Row :=
  rows.map (fun row => row.map convCell)

/-- `DataProcessor._validate_data`: the one required column is `platform`. -/
def validate_data (rows : List Row) : Bool :=
  (dfColumns rows).contains (pystr "platform")

/-- One emitted sheet name plus the log lines of one sheet-creation call. -/
abbrev SheetResult := List PyStr × List (PyStr × PyStr)

/-- `_create_overview_sheet`: always written (its statistics are conditional
on columns, the sheet itself is not). -/
def create_overview_sheet (rows : List Row) : SheetResult :=
  let _ := rows
  ([pystr "总体概况"], [(pystr "info", pystr "总体概况表已创建")])

/-- `_create_platform_comparison_sheet`: skipped with a warning when the
`platform` column or all three numeric columns are absent. -/
def create_platform_comparison_sheet (rows : List Row) : SheetResult :=
  if ¬ (dfColumns rows).contains (pystr "platform") then
    ([], [(pystr "warning", pystr "缺少platform列，跳过创建平台对比表")])
  else
    let available_columns :=
      [pystr "view_count", pystr "like_count", pystr "comment_count"].filter
        (fun c => (dfColumns rows).contains c)
    if available_columns.isEmpty then
      ([], [(pystr "warning", pystr "没有可用于创建平台对比表的数值列")])
    else
      ([pystr "平台对比"], [(pystr "info", pystr "平台对比表已创建")])

/-- `_create_detailed_data_sheet`: projects the available subset of nine
candidate columns; skipped with a warning when none is present. -/
def create_detailed_data_sheet (rows : List Row) : SheetResult :=
  let possible_columns :=
    [pystr "platform", pystr "video_id", pystr "title", pystr "view_count",
     pystr "like_count", pystr "comment_count", pystr "publish_time",
     pystr "channel_title", pystr "channel_country"]
  let available_columns := possible_columns.filter (fun c => (dfColumns rows).contains c)
  if available_columns.isEmpty then
    ([], [(pystr "warning", pystr "没有可用于创建详细数据表的列")])
  else
    ([pystr "详细数据"], [(pystr "info", pystr "详细数据表已创建")])

/-- `_create_geographic_distribution_sheet`: requires `channel_country`. -/
def create_geographic_distribution_sheet (rows : List Row) : SheetResult :=
  if ¬ (dfColumns rows).contains (pystr "channel_country") then
    ([], [(pystr "warning", pystr "缺少channel_country列，跳过创建地理分布表")])
  else
    ([pystr "地理分布"], [(pystr "info", pystr "地理分布表已创建")])

/-- `DataProcessor.generate_report`: returns the emitted sheet names in
order and the log lines (level, message) of the sheet-creation phase. -/
def generate_report (youtube_data tiktok_data : List Row) : List PyStr × List (PyStr × PyStr) :=
  let df := prepare_dataframe youtube_data tiktok_data
  if df.isEmpty then ([], [(pystr "error", pystr "没有可用的数据来生成报告")])
  else if ¬ validate_data df then ([], [(pystr "error", pystr "数据验证失败")])
  else
    let df := convert_to_numeric df
    let r1 := create_overview_sheet df
    let r2 := create_platform_comparison_sheet df
    let r3 := create_detailed_data_sheet df
    let r4 := create_geographic_distribution_sheet df
    (r1.1 ++ r2.1 ++ r3.1 ++ r4.1, r1.2 ++ r2.2 ++ r3.2 ++ r4.2)

/-! ### Claim-side definitions (stated from the spec's words, for comparison
with the embedded code) -/

/-- The first tab-field of an output line (how a consumer reads the
`sequence_number` column). -/
def firstField (line : PyStr) : PyStr := line.takeWhile (fun c => c ≠ '\t')

/-- The candidate videos one term contributes (the filtered entries of a
successful search; a failed or empty search contributes none). -/
def termCandidates (env : RunEnv) (term : PyStr) : List VideoInfo :=
  match env.search term with
  | .ok (some entries) => entries.filterMap id
  | _ => []

/-- The sequence numbers one term's candidate list emits when processing
starts at global index `gi`: every candidate consumes one index, and exactly
the candidates with a non-empty id emit a record. -/
def videoSeqs (gi : Int) : List VideoInfo → List Int
  | [] => []
  | v :: rest =>
    if (v.id.getD []).isEmpty then videoSeqs (gi + 1) rest
    else (gi + 1) :: videoSeqs (gi + 1) rest

/-- The sequence numbers the whole run emits. -/
def candidateSeqs (env : RunEnv) : List (Int × PyStr) → Int → List Int
  | [], _ => []
  | (_, term) :: rest, gi =>
    videoSeqs gi (termCandidates env term)
      ++ candidateSeqs env rest (gi + (termCandidates env term).length)

/-- The consecutive integers `gi+1, gi+2, …, gi+n`. -/
def intRange (gi : Int) (n : Nat) : List Int :=
  (List.range n).map (fun (i : Nat) => gi + (i : Int) + 1)

/-- The total number of candidate videos a run enumerates. -/
def totalCandidates (env : RunEnv) (terms : List (Int × PyStr)) : Nat :=
  (terms.map (fun t => (termCandidates env t.2).length)).sum

/-- The normalized text one caption track contributes: nothing for a falsy
content string, otherwise its extraction. -/
def trackText (t : PyStr × RawPayload) : PyStr :=
  if t.2.isEmpty then [] else extract_subtitle_text t.2.parsed

/-- The tracks of one channel (`'manual'` / `'auto'`) of the subtitles dict. -/
def channelTracks (subs : List (PyStr × List (PyStr × RawPayload)))
    (channel : PyStr) : List (PyStr × RawPayload) :=
  (dictGet channel subs).getD []

/-- The labelled lines the spec expects from one channel: one
`<tag><lang>：<text>` entry per track with non-empty normalized text. -/
def labelledTracks (tag : PyStr) (tracks : List (PyStr × RawPayload)) : List PyStr :=
  tracks.filterMap (fun t =>
    if trackText t = [] then none else some (tag ++ t.1 ++ pystr "：" ++ trackText t))

/-- Well-formed caption segment: a JSON object whose `utf8` value, when
present, is a string. -/
def wfSegB (seg : JVal) : Bool :=
  match seg with
  | .jobj kvs =>
    match jlookup (pystr "utf8") kvs with
    | none => true
    | some (.jstr _) => true
    | some _ => false
  | _ => false

/-- Well-formed caption event: a JSON object whose `segs` value, when
present, is an array of well-formed segments. -/
def wfEventB (event : JVal) : Bool :=
  match event with
  | .jobj kvs =>
    match jlookup (pystr "segs") kvs with
    | none => true
    | some (.jarr segs) => segs.all wfSegB
    | some _ => false
  | _ => false

/-- Well-formed timed-caption payload (the claim's phrase): a JSON object
with an `events` array of well-formed events. -/
def wfPayloadB (j : JVal) : Bool :=
  match j with
  | .jobj kvs =>
    match jlookup (pystr "events") kvs with
    | some (.jarr events) => events.all wfEventB
    | _ => false
  | _ => false

/-- The texts the spec expects one segment to contribute: its stripped
`utf8` string when non-empty. -/
def specSegText (seg : JVal) : List PyStr :=
  match seg with
  | .jobj kvs =>
    match jlookup (pystr "utf8") kvs with
    | some (.jstr s) => if pyStrip s = [] then [] else [pyStrip s]
    | _ => []
  | _ => []

/-- The texts the spec expects one event to contribute, in segment order. -/
def specEventText (event : JVal) : List PyStr :=
  match event with
  | .jobj kvs =>
    match jlookup (pystr "segs") kvs with
    | some (.jarr segs) => (segs.map specSegText).flatten
    | _ => []
  | _ => []

/-- The texts the spec expects from a payload, event order then segment
order. -/
def specTexts (j : JVal) : List PyStr :=
  match j with
  | .jobj kvs =>
    match jlookup (pystr "events") kvs with
    | some (.jarr events) => (events.map specEventText).flatten
    | _ => []
  | _ => []

/-! ### Helper lemmas -/

theorem intercalate_cons_append (sep a : PyStr) (l : List PyStr) :
    ∃ t, List.intercalate sep (a :: l) = a ++ t := by
  cases l with
  | nil => exact ⟨[], by simp [List.intercalate]⟩
  | cons b r =>
    exact ⟨sep ++ List.intercalate sep (b :: r),
      by simp [List.intercalate, List.intersperse_cons_cons]⟩

theorem tagLines_mem (tag : PyStr) (tracks : List (PyStr × RawPayload)) (a : PyStr)
    (h : a ∈ tagLines tag tracks) : ∃ r, a = tag ++ r := by
  unfold tagLines at h
  obtain ⟨t, _, ht⟩ := List.mem_filterMap.mp h
  by_cases h1 : t.2.isEmpty
  · simp [h1] at ht
  · simp only [h1, Bool.false_eq_true, if_false] at ht
    by_cases h2 : extract_subtitle_text t.2.parsed = []
    · simp [h2] at ht
    · simp only [h2, if_false] at ht
      injection ht with ht'
      exact ⟨t.1 ++ pystr "：" ++ extract_subtitle_text t.2.parsed, by
        rw [← ht']; simp⟩

theorem process_subtitles_ne_nil (x : Option (List (PyStr × List (PyStr × RawPayload)))) :
    process_subtitles x ≠ [] := by
  unfold process_subtitles
  match x with
  | none => decide
  | some subs =>
    by_cases he : subs.isEmpty
    · simp [he]; decide
    · simp only [he, Bool.false_eq_true, if_false]
      set ps := (match dictGet (pystr "manual") subs with
         | some m => tagLines (pystr "手动字幕_") m
         | none => [])
        ++ (match dictGet (pystr "auto") subs with
         | some a => tagLines (pystr "自动字幕_") a
         | none => []) with hps
      by_cases hp : ps = []
      · simp [hp]; decide
      · simp only [hp, if_false]
        match ps, hp with
        | a :: rest, _ =>
          have ha : ∃ r, a = pystr "手动字幕_" ++ r ∨ a = pystr "自动字幕_" ++ r := by
            have : a ∈ (match dictGet (pystr "manual") subs with
                | some m => tagLines (pystr "手动字幕_") m
                | none => [])
              ++ (match dictGet (pystr "auto") subs with
                | some a => tagLines (pystr "自动字幕_") a
                | none => []) := by rw [← hps]; simp
            rcases List.mem_append.mp this with h | h
            · match hm : dictGet (pystr "manual") subs with
              | some m =>
                rw [hm] at h
                obtain ⟨r, hr⟩ := tagLines_mem _ _ _ h
                exact ⟨r, Or.inl hr⟩
              | none => rw [hm] at h; simp at h
            · match hm : dictGet (pystr "auto") subs with
              | some m =>
                rw [hm] at h
                obtain ⟨r, hr⟩ := tagLines_mem _ _ _ h
                exact ⟨r, Or.inr hr⟩
              | none => rw [hm] at h; simp at h
          obtain ⟨t, hT⟩ := intercalate_cons_append (pystr "\t") a rest
          rw [hT]
          obtain ⟨r, hr | hr⟩ := ha <;> subst hr <;> simp [pystr]

/-! ### Claims C1, C4, C6, C7 (per-video processing) -/

/-- C7: for every video whose identifier extraction succeeds (non-empty id),
exactly one record is written to the output file — the call appends exactly
one line, whatever the detail-fetch outcome. -/
theorem C7_exactly_one_record (fetch : PyStr → FetchOutcome) (vi : VideoInfo)
    (term : PyStr) (ti gi : Int) (time : PyStr) (file : List PyStr)
    (h : vi.id.getD [] ≠ []) :
    ∃ line, (process_single_video fetch vi term ti gi time file).1 = file ++ [line] := by
  have hid : (vi.id.getD []).isEmpty = false := by
    cases hv : vi.id.getD [] with
    | nil => exact absurd hv h
    | cons a t => rfl
  simp only [process_single_video, hid, Bool.false_eq_true, if_false]
  rcases hf : fetch (pystr "https://www.youtube.com/watch?v=" ++ vi.id.getD []) with e | od
  · exact ⟨_, rfl⟩
  · cases od with
    | none => exact ⟨_, rfl⟩
    | some subs =>
      by_cases hc : (process_subtitles (some (subsDict subs))).isEmpty
      · simp only [hc, if_true]
        exact ⟨_, rfl⟩
      · simp only [hc, Bool.false_eq_true, if_false]
        exact ⟨_, rfl⟩

/-- C7 witness. -/
theorem C7_witness :
    ((⟨some (pystr "v"), none, none, none, none, none, none, none, none, none,
        none⟩ : VideoInfo).id.getD [] ≠ [])
    ∧ ∃ line, (process_single_video (fun _ => Except.ok none)
        ⟨some (pystr "v"), none, none, none, none, none, none, none, none, none, none⟩
        (pystr "term") 1 1 (pystr "ts") []).1 = [] ++ [line] :=
  ⟨by decide,
   C7_exactly_one_record (fun _ => Except.ok none)
     ⟨some (pystr "v"), none, none, none, none, none, none, none, none, none, none⟩
     (pystr "term") 1 1 (pystr "ts") [] (by decide)⟩

/-- C6: for every video whose base record dict exists (identifier extraction
succeeded) and whose remaining processing raises, the exception is caught,
the record's processing_status is overwritten to `处理失败: <message>` and its
caption to `获取失败`, and the record is still written to the output file. -/
theorem C6_midbuild_failure_marked_and_written (fetch : PyStr → FetchOutcome)
    (vi : VideoInfo) (term : PyStr) (ti gi : Int) (time : PyStr) (file : List PyStr)
    (e : PyStr) (h : vi.id.getD [] ≠ [])
    (hf : fetch (pystr "https://www.youtube.com/watch?v=" ++ vi.id.getD []) = .error e) :
    ∃ vd, process_single_video fetch vi term ti gi time file = (save_video_data vd file, false)
      ∧ dictGet kStatus vd = some (.s (pystr "处理失败: " ++ e))
      ∧ dictGet kCaption vd = some (.s (pystr "获取失败")) := by
  have hid : (vi.id.getD []).isEmpty = false := by
    cases hv : vi.id.getD [] with
    | nil => exact absurd hv h
    | cons a t => rfl
  refine ⟨dictSet kCaption (.s (pystr "获取失败"))
    (dictSet kStatus (.s (pystr "处理失败: " ++ e)) (baseVideoData vi term ti gi time)),
    ?_, rfl, rfl⟩
  simp only [process_single_video, hid, Bool.false_eq_true, if_false]
  rw [hf]

/-- C6 witness. -/
theorem C6_witness :
    ((⟨some (pystr "v"), none, none, none, none, none, none, none, none, none,
        none⟩ : VideoInfo).id.getD [] ≠ [])
    ∧ ((fun (_ : PyStr) => (Except.error (pystr "boom") : FetchOutcome))
        (pystr "https://www.youtube.com/watch?v="
          ++ (⟨some (pystr "v"), none, none, none, none, none, none, none, none, none,
                none⟩ : VideoInfo).id.getD []) = .error (pystr "boom"))
    ∧ ∃ vd, process_single_video (fun _ => Except.error (pystr "boom"))
        ⟨some (pystr "v"), none, none, none, none, none, none, none, none, none, none⟩
        (pystr "term") 1 1 (pystr "ts") [] = (save_video_data vd [], false)
      ∧ dictGet kStatus vd = some (.s (pystr "处理失败: " ++ pystr "boom"))
      ∧ dictGet kCaption vd = some (.s (pystr "获取失败")) :=
  ⟨by decide, rfl,
   C6_midbuild_failure_marked_and_written (fun _ => Except.error (pystr "boom"))
     ⟨some (pystr "v"), none, none, none, none, none, none, none, none, none, none⟩
     (pystr "term") 1 1 (pystr "ts") [] (pystr "boom") (by decide) rfl⟩

/-- C1 counterexample: with the provider failing during the detail fetch
(`_get_video_data` catches and returns None), the video is not skipped — one
record is still written to the output file. -/
theorem C1_counterexample_fetch_failure_emits_record :
    (process_single_video (fun _ => Except.ok none)
      ⟨some (pystr "v"), none, none, none, none, none, none, none, none, none, none⟩
      (pystr "term") 1 1 (pystr "ts") []).1.length = 1 := by decide

/-- C1 amended: when the detail fetch fails for a video with a non-empty id,
the video is not skipped; the base record is still written, carrying the
pre-capture status `开始处理` and the default caption `无字幕`. -/
theorem C1_amended_fetch_failure_writes_base_record (fetch : PyStr → FetchOutcome)
    (vi : VideoInfo) (term : PyStr) (ti gi : Int) (time : PyStr) (file : List PyStr)
    (h : vi.id.getD [] ≠ [])
    (hf : fetch (pystr "https://www.youtube.com/watch?v=" ++ vi.id.getD []) = .ok none) :
    process_single_video fetch vi term ti gi time file
      = (save_video_data (baseVideoData vi term ti gi time) file, true)
    ∧ dictGet kStatus (baseVideoData vi term ti gi time) = some (.s (pystr "开始处理"))
    ∧ dictGet kCaption (baseVideoData vi term ti gi time) = some (.s (pystr "无字幕")) := by
  have hid : (vi.id.getD []).isEmpty = false := by
    cases hv : vi.id.getD [] with
    | nil => exact absurd hv h
    | cons a t => rfl
  refine ⟨?_, rfl, rfl⟩
  simp only [process_single_video, hid, Bool.false_eq_true, if_false]
  rw [hf]

/-- C1 amended witness. -/
theorem C1_amended_witness :
    ((⟨some (pystr "v"), none, none, none, none, none, none, none, none, none,
        none⟩ : VideoInfo).id.getD [] ≠ [])
    ∧ process_single_video (fun _ => Except.ok none)
        ⟨some (pystr "v"), none, none, none, none, none, none, none, none, none, none⟩
        (pystr "term") 1 1 (pystr "ts") []
      = (save_video_data (baseVideoData
          ⟨some (pystr "v"), none, none, none, none, none, none, none, none, none, none⟩
          (pystr "term") 1 1 (pystr "ts")) [], true) :=
  ⟨by decide,
   (C1_amended_fetch_failure_writes_base_record (fun _ => Except.ok none)
     ⟨some (pystr "v"), none, none, none, none, none, none, none, none, none, none⟩
     (pystr "term") 1 1 (pystr "ts") [] (by decide) rfl).1⟩

/-- C4 counterexample: a video with zero subtitle tracks gets caption
`无字幕` (the fallback) yet its processing_status is `处理完成`, not the
pre-capture `开始处理` the claim requires. -/
theorem C4_counterexample_fallback_completed :
    (((process_single_video (fun _ => Except.ok (some ⟨[], []⟩))
        ⟨some (pystr "v"), none, none, none, none, none, none, none, none, none, none⟩
        (pystr "term") 1 1 (pystr "ts") []).1.headD []).splitOn '\t').getD 17 []
      = pystr "无字幕"
    ∧ (((process_single_video (fun _ => Except.ok (some ⟨[], []⟩))
        ⟨some (pystr "v"), none, none, none, none, none, none, none, none, none, none⟩
        (pystr "term") 1 1 (pystr "ts") []).1.headD []).splitOn '\t').getD 16 []
      = pystr "处理完成" := by decide

/-- C4 amended: the Caption Normalizer's output is always a non-empty string
(the fallback included), so processing_status is set to `处理完成` whenever
the detail fetch succeeds, fallback or not; it keeps the pre-capture value
`开始处理` exactly when the fetch fails. -/
theorem C4_amended_status_iff_fetch_success (fetch : PyStr → FetchOutcome)
    (vi : VideoInfo) (term : PyStr) (ti gi : Int) (time : PyStr) (file : List PyStr)
    (h : vi.id.getD [] ≠ []) :
    (∀ subs, fetch (pystr "https://www.youtube.com/watch?v=" ++ vi.id.getD [])
        = .ok (some subs) →
      ∃ vd, process_single_video fetch vi term ti gi time file
          = (save_video_data vd file, true)
        ∧ dictGet kStatus vd = some (.s (pystr "处理完成")))
    ∧ (fetch (pystr "https://www.youtube.com/watch?v=" ++ vi.id.getD []) = .ok none →
      ∃ vd, process_single_video fetch vi term ti gi time file
          = (save_video_data vd file, true)
        ∧ dictGet kStatus vd = some (.s (pystr "开始处理"))) := by
  have hid : (vi.id.getD []).isEmpty = false := by
    cases hv : vi.id.getD [] with
    | nil => exact absurd hv h
    | cons a t => rfl
  constructor
  · intro subs hf
    have hc : (process_subtitles (some (subsDict subs))).isEmpty = false := by
      cases hv : process_subtitles (some (subsDict subs)) with
      | nil => exact absurd hv (process_subtitles_ne_nil _)
      | cons a t => rfl
    refine ⟨dictSet kStatus (.s (pystr "处理完成"))
      (dictSet kCaption (.s (process_subtitles (some (subsDict subs))))
        (baseVideoData vi term ti gi time)), ?_, rfl⟩
    simp only [process_single_video, hid, Bool.false_eq_true, if_false]
    rw [hf]
    simp only [hc, Bool.false_eq_true, if_false]
  · intro hf
    refine ⟨baseVideoData vi term ti gi time, ?_, rfl⟩
    simp only [process_single_video, hid, Bool.false_eq_true, if_false]
    rw [hf]

/-- C4 amended witness. -/
theorem C4_amended_witness :
    ((⟨some (pystr "v"), none, none, none, none, none, none, none, none, none,
        none⟩ : VideoInfo).id.getD [] ≠ [])
    ∧ ∃ vd, process_single_video (fun _ => Except.ok (some ⟨[], []⟩))
        ⟨some (pystr "v"), none, none, none, none, none, none, none, none, none, none⟩
        (pystr "term") 1 1 (pystr "ts") [] = (save_video_data vd [], true)
      ∧ dictGet kStatus vd = some (.s (pystr "处理完成")) :=
  ⟨by decide,
   (C4_amended_status_iff_fetch_success (fun _ => Except.ok (some ⟨[], []⟩))
     ⟨some (pystr "v"), none, none, none, none, none, none, none, none, none, none⟩
     (pystr "term") 1 1 (pystr "ts") [] (by decide)).1 ⟨[], []⟩ rfl⟩

/-! ### Claims C3 (output round-trip) and C5 (metadata line) -/

/-- C3 counterexample: a record built from a fully-populated provider
response with two caption tracks has its caption field tab-joined from two
labelled tracks; re-splitting the written line on tabs yields 19 values, not
the 18 the claim asserts. -/
theorem C3_counterexample_multi_track_tabs :
    (((process_single_video
        (fun _ => Except.ok (some ⟨[
          (pystr "en", ⟨false, Except.ok (JVal.jobj [(pystr "events", JVal.jarr
            [JVal.jobj [(pystr "segs", JVal.jarr
              [JVal.jobj [(pystr "utf8", JVal.jstr (pystr "hello"))]])]])])⟩),
          (pystr "zh", ⟨false, Except.ok (JVal.jobj [(pystr "events", JVal.jarr
            [JVal.jobj [(pystr "segs", JVal.jarr
              [JVal.jobj [(pystr "utf8", JVal.jstr (pystr "你好"))]])]])])⟩)], []⟩))
        ⟨some (pystr "vid01"), some (pystr "A Title"), some (pystr "A Channel"),
          some (pystr "chan01"), some (pystr "20240101"), some (pystr "thumb.jpg"),
          some (pystr "1:00"), some 10, some 2, some 1, some (pystr "desc")⟩
        (pystr "china travel") 1 1 (pystr "2024-01-01 00:00:00") []).1.headD
      []).splitOn '\t').length = 19 := by decide

/-- C3 amended: the written line re-splits into exactly the 18 field values
(free-text fields sanitized) provided no rendered field still contains a tab
— in particular the caption field must hold at most one tab-free caption
track; with several tracks the tab-join of their labels breaks the
round-trip. -/
theorem C3_amended_roundtrip (vd : List (PyStr × PyVal)) (file : List PyStr)
    (h : ∀ f ∈ data_fields vd, '\t' ∉ f) :
    save_video_data vd file = file ++ [List.intercalate (pystr "\t") (data_fields vd)]
    ∧ (List.intercalate (pystr "\t") (data_fields vd)).splitOn '\t' = data_fields vd
    ∧ (data_fields vd).length = 18 := by
  refine ⟨rfl, ?_, rfl⟩
  exact List.splitOn_intercalate (data_fields vd) '\t' h (by unfold data_fields; simp)

/-- C3 amended witness. -/
theorem C3_amended_witness :
    (∀ f ∈ data_fields (baseVideoData
        ⟨some (pystr "vid01"), some (pystr "A Title"), some (pystr "A Channel"),
          some (pystr "chan01"), some (pystr "20240101"), some (pystr "thumb.jpg"),
          some (pystr "1:00"), some 10, some 2, some 1, some (pystr "desc")⟩
        (pystr "china travel") 1 1 (pystr "2024-01-01 00:00:00")), '\t' ∉ f)
    ∧ (List.intercalate (pystr "\t") (data_fields (baseVideoData
        ⟨some (pystr "vid01"), some (pystr "A Title"), some (pystr "A Channel"),
          some (pystr "chan01"), some (pystr "20240101"), some (pystr "thumb.jpg"),
          some (pystr "1:00"), some 10, some 2, some 1, some (pystr "desc")⟩
        (pystr "china travel") 1 1 (pystr "2024-01-01 00:00:00")))).splitOn '\t'
      = data_fields (baseVideoData
        ⟨some (pystr "vid01"), some (pystr "A Title"), some (pystr "A Channel"),
          some (pystr "chan01"), some (pystr "20240101"), some (pystr "thumb.jpg"),
          some (pystr "1:00"), some 10, some 2, some 1, some (pystr "desc")⟩
        (pystr "china travel") 1 1 (pystr "2024-01-01 00:00:00")) :=
  ⟨by decide,
   (C3_amended_roundtrip (baseVideoData
        ⟨some (pystr "vid01"), some (pystr "A Title"), some (pystr "A Channel"),
          some (pystr "chan01"), some (pystr "20240101"), some (pystr "thumb.jpg"),
          some (pystr "1:00"), some 10, some 2, some 1, some (pystr "desc")⟩
        (pystr "china travel") 1 1 (pystr "2024-01-01 00:00:00")) [] (by decide)).2.1⟩

/-- C5: the companion metadata JSON line written by `main` does NOT remain
in the output artifact — `fetch_videos` reopens the file in `'w'` mode to
write the header, truncating it; the final artifact starts with the header
line and the metadata line is gone (here shown on a run with no search
terms). -/
theorem C5_code_bug_metadata_truncated :
    main_output_file (pystr "metadata-json-line")
        ⟨fun _ => Except.ok none, fun _ => Except.ok none, fun _ => []⟩ []
      = [List.intercalate (pystr "\t") headers]
    ∧ pystr "metadata-json-line" ∉ main_output_file (pystr "metadata-json-line")
        ⟨fun _ => Except.ok none, fun _ => Except.ok none, fun _ => []⟩ [] := by decide

/-! ### Claim C10 (`_process_subtitles` totality, fallback and ordering) -/

theorem tagLines_eq_labelled (tag : PyStr) (tracks : List (PyStr × RawPayload)) :
    tagLines tag tracks = labelledTracks tag tracks := by
  unfold tagLines labelledTracks
  apply List.filterMap_congr
  intro t _
  by_cases h1 : t.2.isEmpty
  · simp [trackText, h1]
  · by_cases h2 : extract_subtitle_text t.2.parsed = [] <;> simp [trackText, h1, h2]

theorem labelledTracks_nil (tag : PyStr) : labelledTracks tag [] = [] := rfl

theorem labelledTracks_eq_nil_iff (tag : PyStr) (tracks : List (PyStr × RawPayload)) :
    labelledTracks tag tracks = [] ↔ ∀ t ∈ tracks, trackText t = [] := by
  unfold labelledTracks
  rw [List.filterMap_eq_nil_iff]
  constructor
  · intro h t ht
    have := h t ht
    by_cases hx : trackText t = []
    · exact hx
    · simp [hx] at this
  · intro h t ht
    simp [h t ht]

theorem process_subtitles_some_eq (subs : List (PyStr × List (PyStr × RawPayload)))
    (he : subs.isEmpty = false) :
    process_subtitles (some subs) =
      if (labelledTracks (pystr "手动字幕_") (channelTracks subs (pystr "manual"))
          ++ labelledTracks (pystr "自动字幕_") (channelTracks subs (pystr "auto"))) = []
      then pystr "无字幕"
      else List.intercalate (pystr "\t")
        (labelledTracks (pystr "手动字幕_") (channelTracks subs (pystr "manual"))
          ++ labelledTracks (pystr "自动字幕_") (channelTracks subs (pystr "auto"))) := by
  simp only [process_subtitles, he, Bool.false_eq_true, if_false]
  cases hm : dictGet (pystr "manual") subs with
  | none =>
    cases ha : dictGet (pystr "auto") subs with
    | none => simp [channelTracks, hm, ha, labelledTracks_nil]
    | some a => simp [channelTracks, hm, ha, labelledTracks_nil, tagLines_eq_labelled]
  | some m =>
    cases ha : dictGet (pystr "auto") subs with
    | none => simp [channelTracks, hm, ha, labelledTracks_nil, tagLines_eq_labelled]
    | some a => simp [channelTracks, hm, ha, tagLines_eq_labelled]

theorem labelled_intercalate_ne_fallback (l : List PyStr) (hl : l ≠ [])
    (hall : ∀ a ∈ l, (∃ r, a = pystr "手动字幕_" ++ r) ∨ (∃ r, a = pystr "自动字幕_" ++ r)) :
    List.intercalate (pystr "\t") l ≠ pystr "无字幕" := by
  match l, hl with
  | a :: rest, _ =>
    obtain ⟨t, ht⟩ := intercalate_cons_append (pystr "\t") a rest
    rw [ht]
    rcases hall a (by simp) with ⟨r, hr⟩ | ⟨r, hr⟩
    · subst hr
      intro heq
      rw [show (pystr "手动字幕_" : PyStr) = '手' :: pystr "动字幕_" from rfl] at heq
      rw [show pystr "无字幕" = '无' :: pystr "字幕" from rfl] at heq
      simp only [List.cons_append, List.append_assoc] at heq
      injection heq with h1 _
      exact absurd h1 (by decide)
    · subst hr
      intro heq
      rw [show (pystr "自动字幕_" : PyStr) = '自' :: pystr "动字幕_" from rfl] at heq
      rw [show pystr "无字幕" = '无' :: pystr "字幕" from rfl] at heq
      simp only [List.cons_append, List.append_assoc] at heq
      injection heq with h1 _
      exact absurd h1 (by decide)

/-- C10: `_process_subtitles` is total on every input shape — `None`, the
empty dict, dicts missing the `manual` or `auto` key, tracks that all
normalize to empty text — and returns the fallback `无字幕` exactly when no
track yields non-empty normalized text; otherwise the labelled manual tracks
precede the labelled automatic tracks in the tab-joined result. -/
theorem C10_process_subtitles_fallback_and_order :
    process_subtitles none = pystr "无字幕"
    ∧ ∀ subs,
      ((process_subtitles (some subs) = pystr "无字幕")
        ↔ ∀ t ∈ channelTracks subs (pystr "manual") ++ channelTracks subs (pystr "auto"),
            trackText t = [])
      ∧ (process_subtitles (some subs) ≠ pystr "无字幕" →
          process_subtitles (some subs) = List.intercalate (pystr "\t")
            (labelledTracks (pystr "手动字幕_") (channelTracks subs (pystr "manual"))
              ++ labelledTracks (pystr "自动字幕_") (channelTracks subs (pystr "auto")))) := by
  refine ⟨rfl, fun subs => ?_⟩
  by_cases he : subs.isEmpty
  · have hsubs : subs = [] := by
      cases subs with
      | nil => rfl
      | cons a t => simp [List.isEmpty] at he
    subst hsubs
    refine ⟨⟨fun _ => ?_, fun _ => rfl⟩, fun hne => absurd rfl hne⟩
    intro t ht
    simp [channelTracks, dictGet] at ht
  · have he' : subs.isEmpty = false := by
      cases h' : subs.isEmpty
      · rfl
      · exact absurd h' he
    rw [process_subtitles_some_eq subs he']
    by_cases hempty :
      (labelledTracks (pystr "手动字幕_") (channelTracks subs (pystr "manual"))
        ++ labelledTracks (pystr "自动字幕_") (channelTracks subs (pystr "auto"))) = []
    · rw [if_pos hempty]
      obtain ⟨hm, ha⟩ := List.append_eq_nil.mp hempty
      refine ⟨⟨fun _ => ?_, fun _ => rfl⟩, fun hne => absurd rfl hne⟩
      intro t ht
      rcases List.mem_append.mp ht with h | h
      · exact (labelledTracks_eq_nil_iff _ _).mp hm t h
      · exact (labelledTracks_eq_nil_iff _ _).mp ha t h
    · rw [if_neg hempty]
      have hne : List.intercalate (pystr "\t")
          (labelledTracks (pystr "手动字幕_") (channelTracks subs (pystr "manual"))
            ++ labelledTracks (pystr "自动字幕_") (channelTracks subs (pystr "auto")))
          ≠ pystr "无字幕" := by
        apply labelled_intercalate_ne_fallback _ hempty
        intro a ha
        rcases List.mem_append.mp ha with h | h
        · rw [← tagLines_eq_labelled] at h
          exact Or.inl (tagLines_mem _ _ _ h)
        · rw [← tagLines_eq_labelled] at h
          exact Or.inr (tagLines_mem _ _ _ h)
      refine ⟨⟨fun hcontra => absurd hcontra hne, fun hall => ?_⟩, fun _ => rfl⟩
      exfalso
      apply hempty
      rw [List.append_eq_nil]
      constructor
      · exact (labelledTracks_eq_nil_iff _ _).mpr
          (fun t ht => hall t (List.mem_append.mpr (Or.inl ht)))
      · exact (labelledTracks_eq_nil_iff _ _).mpr
          (fun t ht => hall t (List.mem_append.mpr (Or.inr ht)))

/-- C10 witness. -/
theorem C10_witness :
    process_subtitles (some [(pystr "manual",
        [(pystr "en", ⟨false, Except.ok (JVal.jobj [(pystr "events", JVal.jarr
          [JVal.jobj [(pystr "segs", JVal.jarr
            [JVal.jobj [(pystr "utf8", JVal.jstr (pystr "hi"))]])]])])⟩)]),
      (pystr "auto", [])])
      ≠ pystr "无字幕"
    ∧ process_subtitles (some [(pystr "manual",
        [(pystr "en", ⟨false, Except.ok (JVal.jobj [(pystr "events", JVal.jarr
          [JVal.jobj [(pystr "segs", JVal.jarr
            [JVal.jobj [(pystr "utf8", JVal.jstr (pystr "hi"))]])]])])⟩)]),
      (pystr "auto", [])])
      = List.intercalate (pystr "\t")
        (labelledTracks (pystr "手动字幕_")
          (channelTracks [(pystr "manual",
            [(pystr "en", ⟨false, Except.ok (JVal.jobj [(pystr "events", JVal.jarr
              [JVal.jobj [(pystr "segs", JVal.jarr
                [JVal.jobj [(pystr "utf8", JVal.jstr (pystr "hi"))]])]])])⟩)]),
            (pystr "auto", [])] (pystr "manual"))
          ++ labelledTracks (pystr "自动字幕_")
            (channelTracks [(pystr "manual",
              [(pystr "en", ⟨false, Except.ok (JVal.jobj [(pystr "events", JVal.jarr
                [JVal.jobj [(pystr "segs", JVal.jarr
                  [JVal.jobj [(pystr "utf8", JVal.jstr (pystr "hi"))]])]])])⟩)]),
              (pystr "auto", [])] (pystr "auto"))) :=
  ⟨by decide,
   ((C10_process_subtitles_fallback_and_order.2 [(pystr "manual",
        [(pystr "en", ⟨false, Except.ok (JVal.jobj [(pystr "events", JVal.jarr
          [JVal.jobj [(pystr "segs", JVal.jarr
            [JVal.jobj [(pystr "utf8", JVal.jstr (pystr "hi"))]])]])])⟩)]),
      (pystr "auto", [])]).2) (by decide)⟩

/-! ### Claim C8 (the caption normalizer on well-formed payloads) -/

theorem dropWhile_head_not (p : Char → Bool) (l : List Char) (c : Char) (rest : List Char)
    (h : l.dropWhile p = c :: rest) : p c = false := by
  induction l with
  | nil => simp [List.dropWhile] at h
  | cons a t ih =>
    rw [List.dropWhile_cons] at h
    by_cases hp : p a
    · rw [if_pos hp] at h
      exact ih h
    · rw [if_neg hp] at h
      injection h with h1 _
      subst h1
      simpa using hp

theorem pyStrip_ne_newline (s : PyStr) : pyStrip s ≠ pystr "\n" := by
  unfold pyStrip
  intro h
  rw [show pystr "\n" = ['\n'] from rfl] at h
  have h2 : (s.dropWhile pyIsSpace).reverse.dropWhile pyIsSpace = ['\n'] := by
    have h3 := congrArg List.reverse h
    simpa using h3
  have h4 := dropWhile_head_not pyIsSpace _ '\n' [] h2
  simp [pyIsSpace] at h4

theorem mapM_ok {α β : Type} (f : α → Except Unit β) (g : α → β) (l : List α)
    (h : ∀ x ∈ l, f x = .ok (g x)) : l.mapM f = .ok (l.map g) := by
  induction l with
  | nil => rfl
  | cons a t ih =>
    rw [List.mapM_cons, h a (by simp), ih (fun x hx => h x (by simp [hx]))]
    rfl

theorem segTexts_wf (seg : JVal) (h : wfSegB seg = true) :
    segTexts seg = .ok (specSegText seg) := by
  match seg, h with
  | .jobj kvs, h =>
    simp only [wfSegB] at h
    simp only [segTexts, specSegText, jcontains, jindex, Bind.bind, Except.bind]
    cases hl : jlookup (pystr "utf8") kvs with
    | none => simp [pure, Except.pure]
    | some v =>
      rw [hl] at h
      cases v with
      | jstr s =>
        simp only [Option.isSome_some, if_true]
        by_cases hs : pyStrip s = []
        · simp [hs, pure, Except.pure]
        · simp [hs, pyStrip_ne_newline s, pure, Except.pure]
      | jnull => simp at h
      | jbool b => simp at h
      | jnum n => simp at h
      | jarr l => simp at h
      | jobj o => simp at h

theorem eventTexts_wf (event : JVal) (h : wfEventB event = true) :
    eventTexts event = .ok (specEventText event) := by
  match event, h with
  | .jobj kvs, h =>
    simp only [wfEventB] at h
    simp only [eventTexts, specEventText, jcontains, jindex, Bind.bind, Except.bind]
    cases hl : jlookup (pystr "segs") kvs with
    | none => simp [pure, Except.pure]
    | some v =>
      rw [hl] at h
      cases v with
      | jarr segs =>
        have hall : ∀ x ∈ segs, segTexts x = .ok (specSegText x) := by
          intro x hx
          refine segTexts_wf x ?_
          rw [List.all_eq_true] at h
          exact h x hx
        simp only [Option.isSome_some, if_true, jiter]
        rw [mapM_ok segTexts specSegText segs hall]
        simp [pure, Except.pure]
      | jnull => simp at h
      | jbool b => simp at h
      | jnum n => simp at h
      | jstr s => simp at h
      | jobj o => simp at h

theorem extract_wf (j : JVal) (h : wfPayloadB j = true) :
    extract_subtitle_text (.ok j) = List.intercalate (pystr " ") (specTexts j) := by
  match j, h with
  | .jobj kvs, h =>
    simp only [wfPayloadB] at h
    simp only [extract_subtitle_text, extractSubtitleTextJ, specTexts, jcontains,
      jindex, Bind.bind, Except.bind]
    cases hl : jlookup (pystr "events") kvs with
    | none => rw [hl] at h; simp at h
    | some v =>
      rw [hl] at h
      cases v with
      | jarr events =>
        have hall : ∀ x ∈ events, eventTexts x = .ok (specEventText x) := by
          intro x hx
          refine eventTexts_wf x ?_
          rw [List.all_eq_true] at h
          exact h x hx
        simp only [Option.isSome_some, if_true, jiter]
        rw [mapM_ok eventTexts specEventText events hall]
        simp [pure, Except.pure]
      | jnull => simp at h
      | jbool b => simp at h
      | jnum n => simp at h
      | jstr s => simp at h
      | jobj o => simp at h

/-- C8: on every well-formed timed-caption payload (a JSON object whose
`events` array holds events with zero or more string segments), the Caption
Normalizer returns exactly the single-space-separated concatenation of all
segment texts that are non-empty after stripping, in event order then
segment order; on every payload whose parse fails it returns the empty
string without raising. -/
theorem C8_caption_normalizer :
    (∀ j, wfPayloadB j = true →
      extract_subtitle_text (.ok j) = List.intercalate (pystr " ") (specTexts j))
    ∧ ∀ e, extract_subtitle_text (.error e) = [] :=
  ⟨extract_wf, fun _ => rfl⟩

/-- C8 witness. -/
theorem C8_witness :
    wfPayloadB (JVal.jobj [(pystr "events", JVal.jarr
      [JVal.jobj [(pystr "segs", JVal.jarr
        [JVal.jobj [(pystr "utf8", JVal.jstr (pystr " hello "))],
         JVal.jobj [(pystr "utf8", JVal.jstr (pystr "  "))],
         JVal.jobj [(pystr "utf8", JVal.jstr (pystr "world"))]])]])]) = true
    ∧ extract_subtitle_text (.ok (JVal.jobj [(pystr "events", JVal.jarr
      [JVal.jobj [(pystr "segs", JVal.jarr
        [JVal.jobj [(pystr "utf8", JVal.jstr (pystr " hello "))],
         JVal.jobj [(pystr "utf8", JVal.jstr (pystr "  "))],
         JVal.jobj [(pystr "utf8", JVal.jstr (pystr "world"))]])]])]))
      = List.intercalate (pystr " ") (specTexts (JVal.jobj [(pystr "events", JVal.jarr
      [JVal.jobj [(pystr "segs", JVal.jarr
        [JVal.jobj [(pystr "utf8", JVal.jstr (pystr " hello "))],
         JVal.jobj [(pystr "utf8", JVal.jstr (pystr "  "))],
         JVal.jobj [(pystr "utf8", JVal.jstr (pystr "world"))]])]])])) :=
  ⟨by decide,
   C8_caption_normalizer.1 (JVal.jobj [(pystr "events", JVal.jarr
      [JVal.jobj [(pystr "segs", JVal.jarr
        [JVal.jobj [(pystr "utf8", JVal.jstr (pystr " hello "))],
         JVal.jobj [(pystr "utf8", JVal.jstr (pystr "  "))],
         JVal.jobj [(pystr "utf8", JVal.jstr (pystr "world"))]])]])]) (by decide)⟩

/-! ### Claim C9 (report sheets when `channel_country` is absent) -/

theorem addCol_contains_mono (acc : List PyStr) (k k' : PyStr)
    (h : acc.contains k = true) : (addCol acc k').contains k = true := by
  unfold addCol
  by_cases h' : acc.contains k'
  · rw [if_pos h']
    exact h
  · rw [if_neg h']
    have h1 : k ∈ acc := by simpa using h
    simp [List.mem_append, h1]

theorem addCol_contains_self (acc : List PyStr) (k : PyStr) :
    (addCol acc k).contains k = true := by
  unfold addCol
  by_cases h : acc.contains k
  · rw [if_pos h]
    exact h
  · rw [if_neg h]
    simp

theorem addCols_contains_mono (row : Row) (acc : List PyStr) (k : PyStr)
    (h : acc.contains k = true) : (addCols acc row).contains k = true := by
  induction row generalizing acc with
  | nil => exact h
  | cons e rest ih =>
    show ((e :: rest).foldl (fun a e => addCol a e.1) acc).contains k = true
    rw [List.foldl_cons]
    exact ih _ (addCol_contains_mono acc k e.1 h)

theorem addCols_contains_of_mem (row : Row) (acc : List PyStr) (k : PyStr) (v : PyVal)
    (h : (k, v) ∈ row) : (addCols acc row).contains k = true := by
  induction row generalizing acc with
  | nil => simp at h
  | cons e rest ih =>
    show ((e :: rest).foldl (fun a e => addCol a e.1) acc).contains k = true
    rw [List.foldl_cons]
    rcases List.mem_cons.mp h with he | hrest
    · have h1 : (addCol acc e.1).contains k = true := by
        rw [← he]
        exact addCol_contains_self acc k
      exact addCols_contains_mono rest _ k h1
    · exact ih _ hrest

theorem foldl_addCols_contains_mono (rows : List Row) (acc : List PyStr) (k : PyStr)
    (h : acc.contains k = true) : (rows.foldl addCols acc).contains k = true := by
  induction rows generalizing acc with
  | nil => exact h
  | cons r rest ih =>
    rw [List.foldl_cons]
    exact ih _ (addCols_contains_mono r acc k h)

theorem foldl_addCols_contains_of_mem (rows : List Row) (acc : List PyStr) (r : Row)
    (hr : r ∈ rows) (k : PyStr) (v : PyVal) (hk : (k, v) ∈ r) :
    (rows.foldl addCols acc).contains k = true := by
  induction rows generalizing acc with
  | nil => simp at hr
  | cons r0 rest ih =>
    rw [List.foldl_cons]
    rcases List.mem_cons.mp hr with he | hrest
    · subst he
      exact foldl_addCols_contains_mono rest _ k (addCols_contains_of_mem r acc k v hk)
    · exact ih _ hrest

theorem dictSet_mem (k : PyStr) (v : PyVal) (d : List (PyStr × PyVal)) :
    (k, v) ∈ dictSet k v d := by
  unfold dictSet
  by_cases h : d.any (fun e => e.1 == k)
  · rw [if_pos h]
    obtain ⟨e, he, hek⟩ := List.any_eq_true.mp h
    refine List.mem_map.mpr ⟨e, he, ?_⟩
    simp [hek]
  · rw [if_neg h]
    simp

theorem addCols_convert (acc : List PyStr) (row : Row) :
    addCols acc (row.map convCell) = addCols acc row := by
  induction row generalizing acc with
  | nil => rfl
  | cons e rest ih =>
    unfold addCols
    rw [List.map_cons, List.foldl_cons, List.foldl_cons]
    have h1 : (convCell e).1 = e.1 := by
      unfold convCell
      by_cases h : numeric_columns.contains e.1
      · rw [if_pos h]
      · rw [if_neg h]
    rw [h1]
    exact ih _

theorem dfColumns_convert (rows : List Row) :
    dfColumns (convert_to_numeric rows) = dfColumns rows := by
  unfold dfColumns convert_to_numeric
  suffices h : ∀ acc, ((rows.map (fun row => row.map convCell)).foldl addCols acc)
      = rows.foldl addCols acc from h []
  intro acc
  induction rows generalizing acc with
  | nil => rfl
  | cons r rest ih =>
    rw [List.map_cons, List.foldl_cons, List.foldl_cons, addCols_convert]
    exact ih _

theorem platform_in_prepared (yd td : List Row) (h : prepare_dataframe yd td ≠ []) :
    (dfColumns (prepare_dataframe yd td)).contains (pystr "platform") = true := by
  unfold prepare_dataframe at h ⊢
  unfold dfColumns
  cases yd with
  | cons i rest =>
    exact foldl_addCols_contains_of_mem _ [] (tagPlatform (pystr "youtube") i)
      (List.mem_append.mpr (Or.inl (List.mem_map_of_mem _ (List.mem_cons_self i rest))))
      (pystr "platform") (.s (pystr "youtube")) (dictSet_mem _ _ _)
  | nil =>
    cases td with
    | nil => simp at h
    | cons i rest =>
      exact foldl_addCols_contains_of_mem _ [] (tagPlatform (pystr "tiktok") i)
        (List.mem_append.mpr (Or.inr (List.mem_map_of_mem _ (List.mem_cons_self i rest))))
        (pystr "platform") (.s (pystr "tiktok")) (dictSet_mem _ _ _)

theorem comparison_sheet_of (rows : List Row)
    (hpl : (dfColumns rows).contains (pystr "platform") = true)
    (hav : [pystr "view_count", pystr "like_count", pystr "comment_count"].filter
      (fun c => (dfColumns rows).contains c) ≠ []) :
    create_platform_comparison_sheet rows
      = ([pystr "平台对比"], [(pystr "info", pystr "平台对比表已创建")]) := by
  have he : ([pystr "view_count", pystr "like_count", pystr "comment_count"].filter
      (fun c => (dfColumns rows).contains c)).isEmpty = false := by
    cases hc : [pystr "view_count", pystr "like_count", pystr "comment_count"].filter
        (fun c => (dfColumns rows).contains c) with
    | nil => exact absurd hc hav
    | cons a t => rfl
  simp only [create_platform_comparison_sheet, hpl, he, eq_self_iff_true, not_true,
    Bool.false_eq_true, if_false, if_true]

theorem detailed_sheet_of (rows : List Row)
    (hpl : (dfColumns rows).contains (pystr "platform") = true) :
    create_detailed_data_sheet rows
      = ([pystr "详细数据"], [(pystr "info", pystr "详细数据表已创建")]) := by
  unfold create_detailed_data_sheet
  have he : ([pystr "platform", pystr "video_id", pystr "title", pystr "view_count",
      pystr "like_count", pystr "comment_count", pystr "publish_time",
      pystr "channel_title", pystr "channel_country"].filter
        (fun c => (dfColumns rows).contains c)).isEmpty = false := by
    rw [List.filter_cons]
    simp only [hpl, if_true]
    rfl
  simp only [create_detailed_data_sheet, he, Bool.false_eq_true, if_false]

theorem geo_sheet_of (rows : List Row)
    (hcc : (dfColumns rows).contains (pystr "channel_country") = false) :
    create_geographic_distribution_sheet rows
      = ([], [(pystr "warning", pystr "缺少channel_country列，跳过创建地理分布表")]) := by
  simp only [create_geographic_distribution_sheet, hcc, Bool.false_eq_true,
    not_false_iff, if_true]

/-- C9 counterexample: a record pair whose merged structure lacks
`channel_country` AND lacks every numeric column — the claim promises the
platform-comparison sheet, but only the overview and detail sheets are
produced. -/
theorem C9_counterexample_no_numeric_columns :
    (dfColumns (prepare_dataframe [[(pystr "video_id", PyVal.s (pystr "x"))]] [])).contains
      (pystr "channel_country") = false
    ∧ (generate_report [[(pystr "video_id", PyVal.s (pystr "x"))]] []).1
      = [pystr "总体概况", pystr "详细数据"] := by decide

/-- C9 amended: for every pair of record collections whose merged structure
is non-empty, lacks `channel_country`, and retains at least one of the three
numeric comparison columns, the report has exactly the overview,
platform-comparison and detail sheets — the geographic rollup is skipped
with a warning log, not an error. -/
theorem C9_amended_report_sheets (yd td : List Row)
    (hne : prepare_dataframe yd td ≠ [])
    (hcc : (dfColumns (prepare_dataframe yd td)).contains (pystr "channel_country") = false)
    (hnum : (dfColumns (prepare_dataframe yd td)).contains (pystr "view_count") = true
      ∨ (dfColumns (prepare_dataframe yd td)).contains (pystr "like_count") = true
      ∨ (dfColumns (prepare_dataframe yd td)).contains (pystr "comment_count") = true) :
    (generate_report yd td).1 = [pystr "总体概况", pystr "平台对比", pystr "详细数据"]
    ∧ (pystr "warning", pystr "缺少channel_country列，跳过创建地理分布表")
        ∈ (generate_report yd td).2 := by
  have hie : (prepare_dataframe yd td).isEmpty = false := by
    cases hv : prepare_dataframe yd td with
    | nil => exact absurd hv hne
    | cons a t => rfl
  have hpl := platform_in_prepared yd td hne
  have hconv := dfColumns_convert (prepare_dataframe yd td)
  have hpl' : (dfColumns (convert_to_numeric (prepare_dataframe yd td))).contains
      (pystr "platform") = true := by rw [hconv]; exact hpl
  have hcc' : (dfColumns (convert_to_numeric (prepare_dataframe yd td))).contains
      (pystr "channel_country") = false := by rw [hconv]; exact hcc
  have hav : [pystr "view_count", pystr "like_count", pystr "comment_count"].filter
      (fun c => (dfColumns (convert_to_numeric (prepare_dataframe yd td))).contains c)
      ≠ [] := by
    intro hEq
    have hall := List.filter_eq_nil_iff.mp hEq
    rcases hnum with h | h | h
    · exact absurd (hconv ▸ h) (by simpa using hall (pystr "view_count") (by simp))
    · exact absurd (hconv ▸ h) (by simpa using hall (pystr "like_count") (by simp))
    · exact absurd (hconv ▸ h) (by simpa using hall (pystr "comment_count") (by simp))
  have hval : validate_data (prepare_dataframe yd td) = true := hpl
  simp only [generate_report, hie, Bool.false_eq_true, if_false, hval, not_true,
    Bool.true_eq_false]
  rw [comparison_sheet_of _ hpl' hav, detailed_sheet_of _ hpl', geo_sheet_of _ hcc']
  simp [create_overview_sheet]

/-- C9 amended witness. -/
theorem C9_amended_witness :
    prepare_dataframe [[(pystr "video_id", PyVal.s (pystr "x")),
        (pystr "view_count", PyVal.i 5)]] [] ≠ []
    ∧ (generate_report [[(pystr "video_id", PyVal.s (pystr "x")),
        (pystr "view_count", PyVal.i 5)]] []).1
      = [pystr "总体概况", pystr "平台对比", pystr "详细数据"] :=
  ⟨by decide,
   (C9_amended_report_sheets [[(pystr "video_id", PyVal.s (pystr "x")),
      (pystr "view_count", PyVal.i 5)]] [] (by decide) (by decide)
      (Or.inl (by decide))).1⟩

/-! ### Claim C2 (sequence numbers) -/

theorem digitChar_ne_tab (m : Nat) (hm : m < 10) : Nat.digitChar m ≠ '\t' := by
  interval_cases m <;> decide

theorem toDigitsCore_ne_tab (fuel : Nat) : ∀ (n : Nat) (acc : List Char),
    (∀ c ∈ acc, c ≠ '\t') → ∀ c ∈ Nat.toDigitsCore 10 fuel n acc, c ≠ '\t' := by
  induction fuel with
  | zero =>
    intro n acc hacc c hc
    exact hacc c hc
  | succ fuel ih =>
    intro n acc hacc c hc
    rw [Nat.toDigitsCore] at hc
    by_cases h10 : n / 10 = 0
    · rw [if_pos h10] at hc
      rcases List.mem_cons.mp hc with h | h
      · subst h
        exact digitChar_ne_tab _ (Nat.mod_lt _ (by omega))
      · exact hacc c h
    · rw [if_neg h10] at hc
      refine ih (n / 10) (Nat.digitChar (n % 10) :: acc) ?_ c hc
      intro c' hc'
      rcases List.mem_cons.mp hc' with h | h
      · subst h
        exact digitChar_ne_tab _ (Nat.mod_lt _ (by omega))
      · exact hacc c' h

theorem natRepr_ne_tab (n : Nat) : '\t' ∉ (Nat.repr n).data := by
  intro h
  exact toDigitsCore_ne_tab (n + 1) n [] (by simp) '\t' h rfl

theorem toString_int_ne_tab (n : Int) : '\t' ∉ (toString n).data := by
  cases n with
  | ofNat m => exact natRepr_ne_tab m
  | negSucc m =>
    intro h
    have h2 : (toString (Int.negSucc m)).data = '-' :: (Nat.repr (m + 1)).data := rfl
    rw [h2] at h
    rcases List.mem_cons.mp h with h | h
    · exact absurd h (by decide)
    · exact natRepr_ne_tab (m + 1) h

theorem takeWhile_append_stop (p : Char → Bool) (l1 l2 : List Char)
    (h : ∀ x ∈ l1, p x) (c : Char) (hc : ¬ p c) :
    (l1 ++ c :: l2).takeWhile p = l1 := by
  induction l1 with
  | nil => simp [List.takeWhile, hc]
  | cons a t ih =>
    simp only [List.cons_append, List.takeWhile_cons]
    rw [if_pos (h a (by simp))]
    simp [ih (fun x hx => h x (by simp [hx]))]

theorem takeWhile_all (p : Char → Bool) (l : List Char) (h : ∀ x ∈ l, p x) :
    l.takeWhile p = l := by
  induction l with
  | nil => rfl
  | cons a t ih =>
    rw [List.takeWhile_cons, if_pos (h a (by simp))]
    rw [ih (fun x hx => h x (by simp [hx]))]

theorem firstField_intercalate (f : PyStr) (rest : List PyStr) (hf : '\t' ∉ f) :
    firstField (List.intercalate (pystr "\t") (f :: rest)) = f := by
  have hall : ∀ x ∈ f, (fun c => decide (c ≠ '\t')) x = true := by
    intro x hx
    simp only [decide_eq_true_eq]
    intro hxe
    exact hf (hxe ▸ hx)
  cases rest with
  | nil =>
    have h1 : List.intercalate (pystr "\t") [f] = f := by simp [List.intercalate]
    rw [h1]
    exact takeWhile_all _ f hall
  | cons b r =>
    have h1 : List.intercalate (pystr "\t") (f :: b :: r)
        = f ++ '\t' :: List.intercalate (pystr "\t") (b :: r) := by
      simp only [List.intercalate, List.intersperse_cons_cons, List.flatten_cons,
        List.append_assoc]
      rfl
    rw [h1]
    exact takeWhile_append_stop _ f _ hall '\t' (by simp)

theorem firstField_data_fields (vd : List (PyStr × PyVal))
    (h : '\t' ∉ pyStrOf (updatedGet vd kSeq)) :
    firstField (List.intercalate (pystr "\t") (data_fields vd))
      = pyStrOf (updatedGet vd kSeq) := by
  unfold data_fields
  exact firstField_intercalate _ _ h

theorem process_single_video_skip (fetch : PyStr → FetchOutcome) (vi : VideoInfo)
    (term : PyStr) (ti gi : Int) (time : PyStr) (file : List PyStr)
    (h : (vi.id.getD []).isEmpty = true) :
    process_single_video fetch vi term ti gi time file = (file, false) := by
  simp [process_single_video, h]

theorem process_single_video_line (fetch : PyStr → FetchOutcome) (vi : VideoInfo)
    (term : PyStr) (ti gi : Int) (time : PyStr) (file : List PyStr)
    (h : (vi.id.getD []).isEmpty = false) :
    ∃ line, (process_single_video fetch vi term ti gi time file).1 = file ++ [line]
      ∧ firstField line = pystr (toString gi) := by
  simp only [process_single_video, h, Bool.false_eq_true, if_false]
  rcases hf : fetch (pystr "https://www.youtube.com/watch?v=" ++ vi.id.getD []) with e | od
  · refine ⟨_, rfl, ?_⟩
    have hkey : updatedGet
        (dictSet kCaption (.s (pystr "获取失败"))
          (dictSet kStatus (.s (pystr "处理失败: " ++ e)) (baseVideoData vi term ti gi time)))
        kSeq = .i gi := rfl
    rw [firstField_data_fields _ (by rw [hkey]; exact toString_int_ne_tab gi), hkey]
    rfl
  · cases od with
    | none =>
      refine ⟨_, rfl, ?_⟩
      have hkey : updatedGet (baseVideoData vi term ti gi time) kSeq = .i gi := rfl
      rw [firstField_data_fields _ (by rw [hkey]; exact toString_int_ne_tab gi), hkey]
      rfl
    | some subs =>
      by_cases hc : (process_subtitles (some (subsDict subs))).isEmpty
      · simp only [hc, if_true]
        refine ⟨_, rfl, ?_⟩
        have hkey : updatedGet (baseVideoData vi term ti gi time) kSeq = .i gi := rfl
        rw [firstField_data_fields _ (by rw [hkey]; exact toString_int_ne_tab gi), hkey]
        rfl
      · simp only [hc, Bool.false_eq_true, if_false]
        refine ⟨_, rfl, ?_⟩
        have hkey : updatedGet
            (dictSet kStatus (.s (pystr "处理完成"))
              (dictSet kCaption (.s (process_subtitles (some (subsDict subs))))
                (baseVideoData vi term ti gi time)))
            kSeq = .i gi := rfl
        rw [firstField_data_fields _ (by rw [hkey]; exact toString_int_ne_tab gi), hkey]
        rfl

theorem processVideos_cons (env : RunEnv) (term : PyStr) (ti : Int) (v : VideoInfo)
    (rest : List VideoInfo) (gi : Int) (file : List PyStr) (tc : Int) :
    processVideos env term ti (v :: rest) (gi, file, tc)
      = processVideos env term ti rest (gi + 1,
          (process_single_video env.fetch v term ti (gi + 1) (env.clock (gi + 1)) file).1,
          if (process_single_video env.fetch v term ti (gi + 1) (env.clock (gi + 1)) file).2
          then tc + 1 else tc) := rfl

theorem processVideos_spec (env : RunEnv) (term : PyStr) (ti : Int)
    (videos : List VideoInfo) :
    ∀ (gi : Int) (file : List PyStr) (tc : Int),
      ∃ newLines,
        (processVideos env term ti videos (gi, file, tc)).2.1 = file ++ newLines
        ∧ newLines.map firstField
          = (videoSeqs gi videos).map (fun n => pystr (toString n))
        ∧ (processVideos env term ti videos (gi, file, tc)).1 = gi + videos.length := by
  induction videos with
  | nil =>
    intro gi file tc
    exact ⟨[], by simp [processVideos], rfl, by simp [processVideos]⟩
  | cons v rest ih =>
    intro gi file tc
    by_cases hid : (v.id.getD []).isEmpty
    · have hskip := process_single_video_skip env.fetch v term ti (gi + 1)
        (env.clock (gi + 1)) file hid
      obtain ⟨nl, h1, h2, h3⟩ := ih (gi + 1) file tc
      refine ⟨nl, ?_, ?_, ?_⟩
      · rw [processVideos_cons, hskip]
        exact h1
      · rw [h2]
        simp only [videoSeqs, hid, if_true]
      · rw [processVideos_cons, hskip]
        show (processVideos env term ti rest (gi + 1, file, tc)).1 = gi + ((v :: rest).length : Int)
        rw [h3]
        push_cast [List.length_cons]
        omega
    · have hid' : (v.id.getD []).isEmpty = false := by
        cases hv : (v.id.getD []).isEmpty
        · rfl
        · exact absurd hv hid
      obtain ⟨line, hl1, hl2⟩ := process_single_video_line env.fetch v term ti (gi + 1)
        (env.clock (gi + 1)) file hid'
      obtain ⟨nl, h1, h2, h3⟩ := ih (gi + 1)
        (process_single_video env.fetch v term ti (gi + 1) (env.clock (gi + 1)) file).1
        (if (process_single_video env.fetch v term ti (gi + 1) (env.clock (gi + 1)) file).2
         then tc + 1 else tc)
      refine ⟨line :: nl, ?_, ?_, ?_⟩
      · rw [processVideos_cons, h1, hl1]
        simp [List.append_assoc]
      · rw [List.map_cons, hl2, h2]
        simp only [videoSeqs, hid, Bool.false_eq_true, if_false, List.map_cons]
      · rw [processVideos_cons, h3]
        push_cast [List.length_cons]
        omega

theorem totalCandidates_cons (env : RunEnv) (p : Int × PyStr) (rest : List (Int × PyStr)) :
    totalCandidates env (p :: rest)
      = (termCandidates env p.2).length + totalCandidates env rest := by
  simp [totalCandidates]

theorem processTerms_spec (env : RunEnv) (terms : List (Int × PyStr)) :
    ∀ (gi : Int) (file : List PyStr) (tc : Int),
      ∃ newLines,
        (processTerms env terms (gi, file, tc)).2.1 = file ++ newLines
        ∧ newLines.map firstField
          = (candidateSeqs env terms gi).map (fun n => pystr (toString n))
        ∧ (processTerms env terms (gi, file, tc)).1 = gi + totalCandidates env terms := by
  induction terms with
  | nil =>
    intro gi file tc
    exact ⟨[], by simp [processTerms], rfl, by simp [processTerms, totalCandidates]⟩
  | cons p rest ih =>
    obtain ⟨ti, term⟩ := p
    intro gi file tc
    rcases hs : env.search term with e | oe
    · have htc : termCandidates env term = [] := by simp [termCandidates, hs]
      obtain ⟨nl, h1, h2, h3⟩ := ih gi file tc
      refine ⟨nl, ?_, ?_, ?_⟩
      · simp only [processTerms, hs]
        exact h1
      · rw [h2]
        simp [candidateSeqs, htc, videoSeqs]
      · simp only [processTerms, hs]
        rw [h3, totalCandidates_cons, htc]
        simp
    · cases oe with
      | none =>
        have htc : termCandidates env term = [] := by simp [termCandidates, hs]
        obtain ⟨nl, h1, h2, h3⟩ := ih gi file tc
        refine ⟨nl, ?_, ?_, ?_⟩
        · simp only [processTerms, hs]
          exact h1
        · rw [h2]
          simp [candidateSeqs, htc, videoSeqs]
        · simp only [processTerms, hs]
          rw [h3, totalCandidates_cons, htc]
          simp
      | some entries =>
        have htc : termCandidates env term = entries.filterMap id := by
          simp [termCandidates, hs]
        obtain ⟨nl1, hv1, hv2, hv3⟩ :=
          processVideos_spec env term ti (entries.filterMap id) gi file tc
        obtain ⟨nl2, h1, h2, h3⟩ :=
          ih (processVideos env term ti (entries.filterMap id) (gi, file, tc)).1
            (processVideos env term ti (entries.filterMap id) (gi, file, tc)).2.1
            (processVideos env term ti (entries.filterMap id) (gi, file, tc)).2.2
        refine ⟨nl1 ++ nl2, ?_, ?_, ?_⟩
        · simp only [processTerms, hs]
          rw [show processVideos env term ti (entries.filterMap id) (gi, file, tc)
                = ((processVideos env term ti (entries.filterMap id) (gi, file, tc)).1,
                   (processVideos env term ti (entries.filterMap id) (gi, file, tc)).2.1,
                   (processVideos env term ti (entries.filterMap id) (gi, file, tc)).2.2)
              from rfl] at h1 ⊢
          rw [h1, hv1, List.append_assoc]
        · rw [List.map_append, hv2, h2, hv3]
          simp only [candidateSeqs, htc, List.map_append]
        · simp only [processTerms, hs]
          rw [show processVideos env term ti (entries.filterMap id) (gi, file, tc)
                = ((processVideos env term ti (entries.filterMap id) (gi, file, tc)).1,
                   (processVideos env term ti (entries.filterMap id) (gi, file, tc)).2.1,
                   (processVideos env term ti (entries.filterMap id) (gi, file, tc)).2.2)
              from rfl] at h3 ⊢
          rw [h3, hv3, totalCandidates_cons, htc]
          push_cast
          omega

theorem videoSeqs_mem_bounds (videos : List VideoInfo) :
    ∀ (gi : Int) (x : Int), x ∈ videoSeqs gi videos
      → gi < x ∧ x ≤ gi + videos.length := by
  induction videos with
  | nil =>
    intro gi x hx
    simp [videoSeqs] at hx
  | cons v rest ih =>
    intro gi x hx
    unfold videoSeqs at hx
    by_cases hid : (v.id.getD []).isEmpty
    · rw [if_pos hid] at hx
      obtain ⟨h1, h2⟩ := ih (gi + 1) x hx
      refine ⟨by omega, ?_⟩
      push_cast [List.length_cons]
      omega
    · rw [if_neg hid] at hx
      rcases List.mem_cons.mp hx with h | h
      · subst h
        refine ⟨by omega, ?_⟩
        push_cast [List.length_cons]
        omega
      · obtain ⟨h1, h2⟩ := ih (gi + 1) x h
        refine ⟨by omega, ?_⟩
        push_cast [List.length_cons]
        omega

theorem videoSeqs_pairwise (videos : List VideoInfo) :
    ∀ gi : Int, List.Pairwise (· < ·) (videoSeqs gi videos) := by
  induction videos with
  | nil =>
    intro gi
    simp [videoSeqs]
  | cons v rest ih =>
    intro gi
    unfold videoSeqs
    by_cases hid : (v.id.getD []).isEmpty
    · rw [if_pos hid]
      exact ih (gi + 1)
    · rw [if_neg hid]
      rw [List.pairwise_cons]
      exact ⟨fun x hx => (videoSeqs_mem_bounds rest (gi + 1) x hx).1, ih (gi + 1)⟩

theorem candidateSeqs_mem_bounds (env : RunEnv) (l : List (Int × PyStr)) :
    ∀ (gi : Int) (x : Int), x ∈ candidateSeqs env l gi
      → gi < x ∧ x ≤ gi + totalCandidates env l := by
  induction l with
  | nil =>
    intro gi x hx
    simp [candidateSeqs] at hx
  | cons p rest ih =>
    obtain ⟨ti, term⟩ := p
    intro gi x hx
    unfold candidateSeqs at hx
    rcases List.mem_append.mp hx with h | h
    · obtain ⟨h1, h2⟩ := videoSeqs_mem_bounds (termCandidates env term) gi x h
      refine ⟨h1, ?_⟩
      rw [totalCandidates_cons]
      push_cast
      omega
    · obtain ⟨h1, h2⟩ := ih (gi + (termCandidates env term).length) x h
      refine ⟨by omega, ?_⟩
      rw [totalCandidates_cons]
      push_cast
      omega

theorem candidateSeqs_pairwise (env : RunEnv) (l : List (Int × PyStr)) :
    ∀ gi : Int, List.Pairwise (· < ·) (candidateSeqs env l gi) := by
  induction l with
  | nil =>
    intro gi
    simp [candidateSeqs]
  | cons p rest ih =>
    obtain ⟨ti, term⟩ := p
    intro gi
    unfold candidateSeqs
    rw [List.pairwise_append]
    refine ⟨videoSeqs_pairwise _ gi, ih _, ?_⟩
    intro a ha b hb
    have h1 := (videoSeqs_mem_bounds (termCandidates env term) gi a ha).2
    have h2 := (candidateSeqs_mem_bounds env rest
      (gi + (termCandidates env term).length) b hb).1
    omega

theorem intRange_succ (gi : Int) (n : Nat) :
    intRange gi (n + 1) = (gi + 1) :: intRange (gi + 1) n := by
  unfold intRange
  rw [List.range_succ_eq_map, List.map_cons, List.map_map]
  congr 1
  · simp
  · apply List.map_congr_left
    intro i _
    simp only [Function.comp]
    push_cast
    ring

theorem intRange_add (gi : Int) (n m : Nat) :
    intRange gi (n + m) = intRange gi n ++ intRange (gi + n) m := by
  induction n generalizing gi with
  | zero => simp [intRange]
  | succ k ih =>
    rw [show k + 1 + m = (k + m) + 1 from by omega]
    rw [intRange_succ, intRange_succ, ih (gi + 1)]
    rw [List.cons_append]
    congr 2
    push_cast
    ring

theorem videoSeqs_all (videos : List VideoInfo)
    (h : ∀ v ∈ videos, (v.id.getD []).isEmpty = false) :
    ∀ gi : Int, videoSeqs gi videos = intRange gi videos.length := by
  induction videos with
  | nil =>
    intro gi
    simp [videoSeqs, intRange]
  | cons v rest ih =>
    intro gi
    unfold videoSeqs
    rw [if_neg (by rw [h v (by simp)]; simp)]
    rw [List.length_cons, intRange_succ]
    rw [ih (fun x hx => h x (by simp [hx])) (gi + 1)]

theorem candidateSeqs_all (env : RunEnv) (l : List (Int × PyStr))
    (h : ∀ p ∈ l, ∀ v ∈ termCandidates env p.2, (v.id.getD []).isEmpty = false) :
    ∀ gi : Int, candidateSeqs env l gi = intRange gi (totalCandidates env l) := by
  induction l with
  | nil =>
    intro gi
    simp [candidateSeqs, totalCandidates, intRange]
  | cons p rest ih =>
    obtain ⟨ti, term⟩ := p
    intro gi
    unfold candidateSeqs
    rw [videoSeqs_all (termCandidates env term) (h (ti, term) (by simp)) gi]
    rw [ih (fun q hq => h q (by simp [hq])) (gi + (termCandidates env term).length)]
    rw [totalCandidates_cons, intRange_add]

/-- C2 counterexample: one search term returning two candidates, the first
with an empty id. The empty-id candidate consumes global index 1 without
emitting, so the single emitted record carries sequence_number 2 — the first
emitted record's sequence_number is not 1 and the numbering has a gap. -/
theorem C2_counterexample_gap :
    ((fetch_videos ⟨fun _ => Except.ok (some
        [some ⟨some [], none, none, none, none, none, none, none, none, none, none⟩,
         some ⟨some (pystr "a"), none, none, none, none, none, none, none, none, none,
           none⟩]),
      fun _ => Except.ok none, fun _ => pystr "ts"⟩ [pystr "t"] []).1).length = 2
    ∧ firstField (((fetch_videos ⟨fun _ => Except.ok (some
        [some ⟨some [], none, none, none, none, none, none, none, none, none, none⟩,
         some ⟨some (pystr "a"), none, none, none, none, none, none, none, none, none,
           none⟩]),
      fun _ => Except.ok none, fun _ => pystr "ts"⟩ [pystr "t"] []).1).getD 1 [])
      = pystr "2" := by decide

/-- C2 amended: the emitted sequence numbers are exactly the global indices
of the candidates whose id extraction succeeds, in order; they are strictly
increasing with no repeats, but a candidate with an empty id consumes its
index without emitting, leaving a gap. When every candidate has a non-empty
id they are exactly 1, 2, …, N. -/
theorem C2_amended_sequence_numbers (env : RunEnv) (search_terms : List PyStr)
    (fileBefore : List PyStr) :
    ∃ body,
      (fetch_videos env search_terms fileBefore).1
        = List.intercalate (pystr "\t") headers :: body
      ∧ body.map firstField
        = (candidateSeqs env (enumerate1 search_terms) 0).map
            (fun n => pystr (toString n))
      ∧ List.Pairwise (· < ·) (candidateSeqs env (enumerate1 search_terms) 0)
      ∧ ((∀ term ∈ search_terms, ∀ v ∈ termCandidates env term,
            (v.id.getD []).isEmpty = false) →
          candidateSeqs env (enumerate1 search_terms) 0
            = intRange 0 (totalCandidates env (enumerate1 search_terms))) := by
  obtain ⟨nl, h1, h2, _⟩ := processTerms_spec env (enumerate1 search_terms) 0
    [List.intercalate (pystr "\t") headers] 0
  refine ⟨nl, ?_, h2, candidateSeqs_pairwise env _ 0, ?_⟩
  · show (processTerms env (enumerate1 search_terms)
      (0, [List.intercalate (pystr "\t") headers], 0)).2.1 = _
    rw [h1]
    rfl
  · intro hall
    refine candidateSeqs_all env _ ?_ 0
    intro p hp v hv
    refine hall p.2 ?_ v hv
    unfold enumerate1 at hp
    obtain ⟨q, hq, hpe⟩ := List.mem_map.mp hp
    rw [← hpe]
    show q.2 ∈ search_terms
    have hsnd := List.enum_map_snd search_terms
    rw [← hsnd]
    exact List.mem_map_of_mem Prod.snd hq

/-- C2 amended witness. -/
theorem C2_amended_witness :
    ∃ body,
      (fetch_videos ⟨fun _ => Except.ok (some
          [some ⟨some (pystr "a"), none, none, none, none, none, none, none, none, none,
            none⟩]),
        fun _ => Except.ok none, fun _ => pystr "ts"⟩ [pystr "t"] []).1
        = List.intercalate (pystr "\t") headers :: body
      ∧ body.map firstField
        = (candidateSeqs ⟨fun _ => Except.ok (some
            [some ⟨some (pystr "a"), none, none, none, none, none, none, none, none,
              none, none⟩]),
          fun _ => Except.ok none, fun _ => pystr "ts"⟩ (enumerate1 [pystr "t"]) 0).map
            (fun n => pystr (toString n))
      ∧ List.Pairwise (· < ·) (candidateSeqs ⟨fun _ => Except.ok (some
          [some ⟨some (pystr "a"), none, none, none, none, none, none, none, none, none,
            none⟩]),
        fun _ => Except.ok none, fun _ => pystr "ts"⟩ (enumerate1 [pystr "t"]) 0)
      ∧ ((∀ term ∈ [pystr "t"], ∀ v ∈ termCandidates ⟨fun _ => Except.ok (some
            [some ⟨some (pystr "a"), none, none, none, none, none, none, none, none,
              none, none⟩]),
          fun _ => Except.ok none, fun _ => pystr "ts"⟩ term,
            (v.id.getD []).isEmpty = false) →
          candidateSeqs ⟨fun _ => Except.ok (some
            [some ⟨some (pystr "a"), none, none, none, none, none, none, none, none,
              none, none⟩]),
          fun _ => Except.ok none, fun _ => pystr "ts"⟩ (enumerate1 [pystr "t"]) 0
            = intRange 0 (totalCandidates ⟨fun _ => Except.ok (some
              [some ⟨some (pystr "a"), none, none, none, none, none, none, none, none,
                none, none⟩]),
            fun _ => Except.ok none, fun _ => pystr "ts"⟩ (enumerate1 [pystr "t"]))) :=
  C2_amended_sequence_numbers ⟨fun _ => Except.ok (some
      [some ⟨some (pystr "a"), none, none, none, none, none, none, none, none, none,
        none⟩]),
    fun _ => Except.ok none, fun _ => pystr "ts"⟩ [pystr "t"] []
